import Mathlib

/-!
Verification of the logical-plan core of a lazy dataframe engine
(`polars-lazy/src/logical_plan/mod.rs`).

The definitions below are a shallow embedding of that file.  Types that the
file consumes from sibling crates (the expression IR `Expr`, the schema
model, the expression utility functions) are modelled from the specification
and marked as such in their doc comments.  Everything defined directly in
`mod.rs` (`LogicalPlan`, `LogicalPlan::schema`, `LogicalPlan::dot`,
`replace_wildcard_with_column`, `rewrite_projections`, `prepare_projection`,
`LogicalPlanBuilder`, `det_melt_schema`) is translated from the source.
-/

namespace PolarsLP

/-- Modelled from the spec: the dtype tags used by the schema model.  Only the
tags are needed by the logical plan; floating point payloads never appear. -/
inductive DataType where
  | Boolean
  | UInt32
  | Int32
  | Int64
  | Float32
  | Float64
  | Utf8
  | Date64
  | Null
deriving DecidableEq, Repr

/-- Modelled from the spec: a schema field is a `(name, dtype)` pair. -/
structure Field where
  name : String
  dtype : DataType
deriving DecidableEq, Repr

/-- Modelled from the spec: an ordered list of fields with by-name and
by-index lookup. -/
structure Schema where
  fields : List Field
deriving DecidableEq, Repr

/-- `Schema::field(i)`: by-index lookup (fallible in the source). -/
def Schema.field (s : Schema) (i : Nat) : Option Field :=
  s.fields.get? i

/-- `Schema::field_with_name`: first field with the given name. -/
def Schema.field_with_name (s : Schema) (n : String) : Option Field :=
  s.fields.find? (fun f => f.name == n)

/-- `Schema::index_of`: index of the first field with the given name. -/
def Schema.index_of (s : Schema) (n : String) : Option Nat :=
  s.fields.findIdx? (fun f => f.name == n)

/-- `LiteralValue` from the source.  The floating-point variants and the
feature-gated integer widths are omitted: no claim touches them and floats
have no shallow embedding.  `Series` keeps only the dtype that
`get_datatype` reads from the embedded column. -/
inductive LiteralValue where
  | Null
  | Boolean (b : Bool)
  | Utf8 (s : String)
  | UInt32 (n : Nat)
  | Int32 (n : Int)
  | Int64 (n : Int)
  | Range (low : Int) (high : Int) (data_type : DataType)
  | Series (dtype : DataType)
deriving DecidableEq, Repr

/-- `LiteralValue::get_datatype` from the source. -/
def LiteralValue.get_datatype : LiteralValue → DataType
  | .Boolean _ => .Boolean
  | .UInt32 _ => .UInt32
  | .Int32 _ => .Int32
  | .Int64 _ => .Int64
  | .Utf8 _ => .Utf8
  | .Range _ _ dt => dt
  | .Series dt => dt
  | .Null => .Null

/-- Modelled from the spec: the binary operators of the expression IR. -/
inductive Operator where
  | Plus
  | Minus
  | Multiply
  | Divide
  | Modulus
  | Eq
  | NotEq
  | Lt
  | LtEq
  | Gt
  | GtEq
  | And
  | Or
deriving DecidableEq, Repr

/-- Modelled from the spec: `Context` selects how an expression reports its
output field. -/
inductive Context where
  | Aggregation
  | Default
deriving DecidableEq, Repr

mutual

/-- Modelled from the spec: the aggregate expression kinds enumerated by the
wildcard rewriter (`Mean, Median, Max, Min, Sum, Count, Last, First, NUnique,
AggGroups, Quantile, List, Var, Std`).  The `quantile` payload is an f64 in
the source and is kept opaque. -/
inductive AggExpr where
  | Mean (e : Expr)
  | Median (e : Expr)
  | Max (e : Expr)
  | Min (e : Expr)
  | Sum (e : Expr)
  | Count (e : Expr)
  | Last (e : Expr)
  | First (e : Expr)
  | NUnique (e : Expr)
  | AggGroups (e : Expr)
  | Quantile (expr : Expr) (quantile : Unit)
  | List (e : Expr)
  | Var (e : Expr)
  | Std (e : Expr)

/-- Modelled from the spec: the expression IR, with exactly the constructors
the wildcard rewriter in the source enumerates.  Opaque function payloads
(`function`, `output_type`, `output_field`, `collect_groups`) are kept as
`Unit` placeholders; they are carried through untouched by every operation
in the source file. -/
inductive Expr where
  | Alias (e : Expr) (name : String)
  | Column (name : String)
  | Literal (v : LiteralValue)
  | BinaryExpr (left : Expr) (op : Operator) (right : Expr)
  | Not (e : Expr)
  | IsNotNull (e : Expr)
  | IsNull (e : Expr)
  | Cast (expr : Expr) (data_type : DataType)
  | Sort (expr : Expr) (reverse : Bool)
  | Take (expr : Expr) (idx : Expr)
  | SortBy (expr : Expr) (by_ : Expr) (reverse : Bool)
  | Agg (agg : AggExpr)
  | Ternary (predicate : Expr) (truthy : Expr) (falsy : Expr)
  | Function (input : List Expr) (function : Unit) (output_type : Unit)
      (collect_groups : Unit)
  | BinaryFunction (input_a : Expr) (input_b : Expr) (function : Unit)
      (output_field : Unit)
  | Shift (input : Expr) (periods : Int)
  | Reverse (e : Expr)
  | Duplicated (e : Expr)
  | IsUnique (e : Expr)
  | Explode (e : Expr)
  | Filter (input : Expr) (by_ : Expr)
  | Window (function : Expr) (partition_by : Expr) (order_by : Option Expr)
  | Wildcard
  | Slice (input : Expr) (offset : Int) (length : Nat)
  | Except (e : Expr)

end

/-- `matches!(e, Expr::Wildcard)` from `rewrite_projections`. -/
def isWildcard : Expr → Bool
  | .Wildcard => true
  | _ => false

/-- `matches!(e, Expr::Agg(AggExpr::Count(_)))` from `rewrite_projections`. -/
def isCountAgg : Expr → Bool
  | .Agg (.Count _) => true
  | _ => false

/-- `matches!(e, Expr::Except(_))`: whether an expression is an `Except`
shell (handled up front by `rewrite_projections`). -/
def Expr.isExcept : Expr → Bool
  | .Except _ => true
  | _ => false

/-- `matches!(e, Expr::Alias(..))`: whether the root is an alias. -/
def Expr.isAlias : Expr → Bool
  | .Alias _ _ => true
  | _ => false

mutual

/-- Modelled from the spec: visitor predicate `has_expr(&expr, pred)`,
true when any subterm matches. -/
def has_expr (e : Expr) (p : Expr → Bool) : Bool :=
  p e ||
    match e with
    | .Alias e2 _ => has_expr e2 p
    | .Column _ => false
    | .Literal _ => false
    | .BinaryExpr l _ r => has_expr l p || has_expr r p
    | .Not e2 => has_expr e2 p
    | .IsNotNull e2 => has_expr e2 p
    | .IsNull e2 => has_expr e2 p
    | .Cast e2 _ => has_expr e2 p
    | .Sort e2 _ => has_expr e2 p
    | .Take e2 idx => has_expr e2 p || has_expr idx p
    | .SortBy e2 b _ => has_expr e2 p || has_expr b p
    | .Agg a => has_agg_expr a p
    | .Ternary c t f => has_expr c p || has_expr t p || has_expr f p
    | .Function input _ _ _ => has_expr_list input p
    | .BinaryFunction a b _ _ => has_expr a p || has_expr b p
    | .Shift e2 _ => has_expr e2 p
    | .Reverse e2 => has_expr e2 p
    | .Duplicated e2 => has_expr e2 p
    | .IsUnique e2 => has_expr e2 p
    | .Explode e2 => has_expr e2 p
    | .Filter i b => has_expr i p || has_expr b p
    | .Window f pb ob => has_expr f p || has_expr pb p || has_expr_opt ob p
    | .Wildcard => false
    | .Slice e2 _ _ => has_expr e2 p
    | .Except e2 => has_expr e2 p

/-- Subterm search inside an aggregate expression. -/
def has_agg_expr (a : AggExpr) (p : Expr → Bool) : Bool :=
  match a with
  | .Mean e => has_expr e p
  | .Median e => has_expr e p
  | .Max e => has_expr e p
  | .Min e => has_expr e p
  | .Sum e => has_expr e p
  | .Count e => has_expr e p
  | .Last e => has_expr e p
  | .First e => has_expr e p
  | .NUnique e => has_expr e p
  | .AggGroups e => has_expr e p
  | .Quantile e _ => has_expr e p
  | .List e => has_expr e p
  | .Var e => has_expr e p
  | .Std e => has_expr e p

/-- Subterm search over an expression list. -/
def has_expr_list (es : List Expr) (p : Expr → Bool) : Bool :=
  match es with
  | [] => false
  | e :: rest => has_expr e p || has_expr_list rest p

/-- Subterm search over an optional expression. -/
def has_expr_opt (oe : Option Expr) (p : Expr → Bool) : Bool :=
  match oe with
  | none => false
  | some e => has_expr e p

end

mutual

/-- `replace_wildcard_with_column` from the source: a structural deep copy
substituting `Wildcard` with `Column(column_name)`.  Window partition/order
lists, `Take` indices and `SortBy` keys are passed through untouched;
`Column`, `Literal` and `Except` are returned unchanged; reaching a
`Filter` panics in the source (modelled as `none`). -/
def replace_wildcard_with_column (expr : Expr) (column_name : String) :
    Option Expr :=
  match expr with
  | .Window function partition_by order_by =>
    (replace_wildcard_with_column function column_name).map
      (fun f => .Window f partition_by order_by)
  | .IsUnique e =>
    (replace_wildcard_with_column e column_name).map .IsUnique
  | .Duplicated e =>
    (replace_wildcard_with_column e column_name).map .Duplicated
  | .Reverse e =>
    (replace_wildcard_with_column e column_name).map .Reverse
  | .Explode e =>
    (replace_wildcard_with_column e column_name).map .Explode
  | .Take e idx =>
    (replace_wildcard_with_column e column_name).map (fun e2 => .Take e2 idx)
  | .Ternary predicate truthy falsy => do
    let p ← replace_wildcard_with_column predicate column_name
    let t ← replace_wildcard_with_column truthy column_name
    let f ← replace_wildcard_with_column falsy column_name
    pure (.Ternary p t f)
  | .Function input function output_type collect_groups =>
    (replace_wildcard_list input column_name).map
      (fun i => .Function i function output_type collect_groups)
  | .BinaryFunction input_a input_b function output_field => do
    let a ← replace_wildcard_with_column input_a column_name
    let b ← replace_wildcard_with_column input_b column_name
    pure (.BinaryFunction a b function output_field)
  | .BinaryExpr left op right => do
    let l ← replace_wildcard_with_column left column_name
    let r ← replace_wildcard_with_column right column_name
    pure (.BinaryExpr l op r)
  | .Wildcard => some (.Column column_name)
  | .IsNotNull e =>
    (replace_wildcard_with_column e column_name).map .IsNotNull
  | .IsNull e =>
    (replace_wildcard_with_column e column_name).map .IsNull
  | .Not e =>
    (replace_wildcard_with_column e column_name).map .Not
  | .Alias e name =>
    (replace_wildcard_with_column e column_name).map (fun e2 => .Alias e2 name)
  | .Filter _ _ => none
  | .Agg agg =>
    (replace_wildcard_agg agg column_name).map .Agg
  | .Shift input periods =>
    (replace_wildcard_with_column input column_name).map
      (fun i => .Shift i periods)
  | .Slice input offset length =>
    (replace_wildcard_with_column input column_name).map
      (fun i => .Slice i offset length)
  | .SortBy e b reverse =>
    (replace_wildcard_with_column e column_name).map
      (fun e2 => .SortBy e2 b reverse)
  | .Sort e reverse =>
    (replace_wildcard_with_column e column_name).map
      (fun e2 => .Sort e2 reverse)
  | .Cast e data_type =>
    (replace_wildcard_with_column e column_name).map
      (fun e2 => .Cast e2 data_type)
  | .Column _ => some expr
  | .Literal _ => some expr
  | .Except _ => some expr

/-- Wildcard substitution inside each aggregate kind. -/
def replace_wildcard_agg (agg : AggExpr) (column_name : String) :
    Option AggExpr :=
  match agg with
  | .Mean e => (replace_wildcard_with_column e column_name).map .Mean
  | .Median e => (replace_wildcard_with_column e column_name).map .Median
  | .Max e => (replace_wildcard_with_column e column_name).map .Max
  | .Min e => (replace_wildcard_with_column e column_name).map .Min
  | .Sum e => (replace_wildcard_with_column e column_name).map .Sum
  | .Count e => (replace_wildcard_with_column e column_name).map .Count
  | .Last e => (replace_wildcard_with_column e column_name).map .Last
  | .First e => (replace_wildcard_with_column e column_name).map .First
  | .NUnique e => (replace_wildcard_with_column e column_name).map .NUnique
  | .AggGroups e => (replace_wildcard_with_column e column_name).map .AggGroups
  | .Quantile e q =>
    (replace_wildcard_with_column e column_name).map (fun e2 => .Quantile e2 q)
  | .List e => (replace_wildcard_with_column e column_name).map .List
  | .Var e => (replace_wildcard_with_column e column_name).map .Var
  | .Std e => (replace_wildcard_with_column e column_name).map .Std

/-- Wildcard substitution over the inputs of an n-ary `Function`. -/
def replace_wildcard_list (es : List Expr) (column_name : String) :
    Option (List Expr) :=
  match es with
  | [] => some []
  | e :: rest => do
    let e2 ← replace_wildcard_with_column e column_name
    let rest2 ← replace_wildcard_list rest column_name
    pure (e2 :: rest2)

end

mutual

/-- Modelled from the spec: name extraction `expr_to_root_column_names`,
collecting the root (leaf) `Column` names of an expression. -/
def expr_to_root_column_names (e : Expr) : List String :=
  match e with
  | .Column n => [n]
  | .Alias e2 _ => expr_to_root_column_names e2
  | .Literal _ => []
  | .BinaryExpr l _ r =>
    expr_to_root_column_names l ++ expr_to_root_column_names r
  | .Not e2 => expr_to_root_column_names e2
  | .IsNotNull e2 => expr_to_root_column_names e2
  | .IsNull e2 => expr_to_root_column_names e2
  | .Cast e2 _ => expr_to_root_column_names e2
  | .Sort e2 _ => expr_to_root_column_names e2
  | .Take e2 idx =>
    expr_to_root_column_names e2 ++ expr_to_root_column_names idx
  | .SortBy e2 b _ =>
    expr_to_root_column_names e2 ++ expr_to_root_column_names b
  | .Agg a => agg_to_root_column_names a
  | .Ternary c t f =>
    expr_to_root_column_names c ++ expr_to_root_column_names t ++
      expr_to_root_column_names f
  | .Function input _ _ _ => exprs_to_root_column_names input
  | .BinaryFunction a b _ _ =>
    expr_to_root_column_names a ++ expr_to_root_column_names b
  | .Shift e2 _ => expr_to_root_column_names e2
  | .Reverse e2 => expr_to_root_column_names e2
  | .Duplicated e2 => expr_to_root_column_names e2
  | .IsUnique e2 => expr_to_root_column_names e2
  | .Explode e2 => expr_to_root_column_names e2
  | .Filter i b =>
    expr_to_root_column_names i ++ expr_to_root_column_names b
  | .Window f pb ob =>
    expr_to_root_column_names f ++ expr_to_root_column_names pb ++
      (match ob with
       | none => []
       | some o => expr_to_root_column_names o)
  | .Wildcard => []
  | .Slice e2 _ _ => expr_to_root_column_names e2
  | .Except e2 => expr_to_root_column_names e2

/-- Root column names inside an aggregate expression. -/
def agg_to_root_column_names (a : AggExpr) : List String :=
  match a with
  | .Mean e => expr_to_root_column_names e
  | .Median e => expr_to_root_column_names e
  | .Max e => expr_to_root_column_names e
  | .Min e => expr_to_root_column_names e
  | .Sum e => expr_to_root_column_names e
  | .Count e => expr_to_root_column_names e
  | .Last e => expr_to_root_column_names e
  | .First e => expr_to_root_column_names e
  | .NUnique e => expr_to_root_column_names e
  | .AggGroups e => expr_to_root_column_names e
  | .Quantile e _ => expr_to_root_column_names e
  | .List e => expr_to_root_column_names e
  | .Var e => expr_to_root_column_names e
  | .Std e => expr_to_root_column_names e

/-- Root column names over an expression list. -/
def exprs_to_root_column_names (es : List Expr) : List String :=
  match es with
  | [] => []
  | e :: rest => expr_to_root_column_names e ++ exprs_to_root_column_names rest

end

/-- Modelled from the spec: `expr_to_root_column_name`, succeeding exactly
when the expression has a single root column. -/
def expr_to_root_column_name (e : Expr) : Option String :=
  match expr_to_root_column_names e with
  | [n] => some n
  | _ => none

/-- Modelled from the spec: root rename `rename_expr_root_name(&expr,
new_name)`, replacing the root column (or wildcard) of an expression chain
by `Column(new_name)`.  Fails (`none`) when the expression has no unique
renameable root. -/
def rename_expr_root_name (expr : Expr) (new_name : String) : Option Expr :=
  match expr with
  | .Column _ => some (.Column new_name)
  | .Wildcard => some (.Column new_name)
  | .Alias e n =>
    (rename_expr_root_name e new_name).map (fun e2 => .Alias e2 n)
  | .Not e => (rename_expr_root_name e new_name).map .Not
  | .IsNotNull e => (rename_expr_root_name e new_name).map .IsNotNull
  | .IsNull e => (rename_expr_root_name e new_name).map .IsNull
  | .Reverse e => (rename_expr_root_name e new_name).map .Reverse
  | .Duplicated e => (rename_expr_root_name e new_name).map .Duplicated
  | .IsUnique e => (rename_expr_root_name e new_name).map .IsUnique
  | .Explode e => (rename_expr_root_name e new_name).map .Explode
  | .Sort e r =>
    (rename_expr_root_name e new_name).map (fun e2 => .Sort e2 r)
  | .Cast e dt =>
    (rename_expr_root_name e new_name).map (fun e2 => .Cast e2 dt)
  | .Shift e p =>
    (rename_expr_root_name e new_name).map (fun e2 => .Shift e2 p)
  | .Slice e o l =>
    (rename_expr_root_name e new_name).map (fun e2 => .Slice e2 o l)
  | .Take e idx =>
    (rename_expr_root_name e new_name).map (fun e2 => .Take e2 idx)
  | .SortBy e b r =>
    (rename_expr_root_name e new_name).map (fun e2 => .SortBy e2 b r)
  | .Window f pb ob =>
    (rename_expr_root_name f new_name).map (fun f2 => .Window f2 pb ob)
  | .Agg a =>
    match a with
    | .Mean e => (rename_expr_root_name e new_name).map (.Agg ∘ .Mean)
    | .Median e => (rename_expr_root_name e new_name).map (.Agg ∘ .Median)
    | .Max e => (rename_expr_root_name e new_name).map (.Agg ∘ .Max)
    | .Min e => (rename_expr_root_name e new_name).map (.Agg ∘ .Min)
    | .Sum e => (rename_expr_root_name e new_name).map (.Agg ∘ .Sum)
    | .Count e => (rename_expr_root_name e new_name).map (.Agg ∘ .Count)
    | .Last e => (rename_expr_root_name e new_name).map (.Agg ∘ .Last)
    | .First e => (rename_expr_root_name e new_name).map (.Agg ∘ .First)
    | .NUnique e => (rename_expr_root_name e new_name).map (.Agg ∘ .NUnique)
    | .AggGroups e =>
      (rename_expr_root_name e new_name).map (.Agg ∘ .AggGroups)
    | .Quantile e q =>
      (rename_expr_root_name e new_name).map (fun e2 => .Agg (.Quantile e2 q))
    | .List e => (rename_expr_root_name e new_name).map (.Agg ∘ .List)
    | .Var e => (rename_expr_root_name e new_name).map (.Agg ∘ .Var)
    | .Std e => (rename_expr_root_name e new_name).map (.Agg ∘ .Std)
  | _ => none

/-- Modelled from the spec: `output_name(expr)`, the column name an
expression resolves to in the output. -/
def output_name (e : Expr) : Option String :=
  match e with
  | .Column n => some n
  | .Alias _ n => some n
  | .Sort e2 _ => output_name e2
  | _ => none

/-- Whether a binary operator is a comparison (its field dtype is Boolean). -/
def Operator.isComparison : Operator → Bool
  | .Eq => true
  | .NotEq => true
  | .Lt => true
  | .LtEq => true
  | .Gt => true
  | .GtEq => true
  | _ => false

/-- Modelled from the spec: field inference `expr.to_field(&schema,
context)`.  Only the shapes the claims exercise are given; everything else
is a derivation error (`none`). -/
def to_field (e : Expr) (s : Schema) (ctxt : Context) : Option Field :=
  match e with
  | .Column n => Schema.field_with_name s n
  | .Alias e2 n => (to_field e2 s ctxt).map (fun f => ⟨n, f.dtype⟩)
  | .Literal v => some ⟨"literal", v.get_datatype⟩
  | .BinaryExpr l op _ =>
    if op.isComparison then
      (to_field l s ctxt).map (fun f => ⟨f.name, .Boolean⟩)
    else
      to_field l s ctxt
  | _ => none

/-- Modelled from the spec (§4.2): `expressions_to_schema` computes output
fields by evaluating each expression's `to_field`. -/
def expressions_to_schema (exprs : List Expr) (s : Schema) (ctxt : Context) :
    Option Schema :=
  (exprs.mapM (fun e => to_field e s ctxt)).map Schema.mk

/-- Folding one field into a merged field list; a name clash with a
different dtype is a merge error. -/
def merge_field (fields : List Field) (f : Field) : Option (List Field) :=
  match fields.find? (fun g => g.name == f.name) with
  | some g => if g.dtype = f.dtype then some fields else none
  | none => some (fields ++ [f])

/-- Modelled from the spec: `Schema::try_merge`. -/
def try_merge (schemas : List Schema) : Option Schema :=
  (schemas.foldlM (fun acc (s : Schema) => s.fields.foldlM merge_field acc)
    ([] : List Field)).map Schema.mk

/-- `Vec::swap_remove(i)`: replace the element at `i` with the last element
and drop the last slot. -/
def swap_remove {α : Type} (l : List α) (i : Nat) : List α :=
  match l.getLast? with
  | none => l
  | some x => (l.set i x).dropLast

/-- One pass of the exclusion loop in `rewrite_projections`: find the first
output whose root column name equals the excluded `name` and
`swap_remove` it. -/
def remove_excluded_one (result : List Expr) (name : String) : List Expr :=
  match result.findIdx? (fun e =>
      match expr_to_root_column_name e with
      | some column_name => column_name == name
      | none => false) with
  | some idx => swap_remove result idx
  | none => result

/-- The emission `rewrite_projections` performs for one non-`Except` input
expression: count-wildcard collapse, wildcard fan-out over the schema
fields, or the expression unchanged.  `none` models the panics of the
source (`schema.field(0).unwrap()`, `rename_expr_root_name(..).unwrap()`,
`Filter` under a wildcard). -/
def rp_step (s : Schema) (e : Expr) : Option (List Expr) :=
  if has_expr e isWildcard then
    if has_expr e isCountAgg then
      (Schema.field s 0).bind (fun f =>
        (rename_expr_root_name e f.name).map (fun renamed =>
          [if renamed.isAlias then renamed
           else .Alias renamed "count"]))
    else
      s.fields.mapM (fun f => replace_wildcard_with_column e f.name)
  else
    some [e]

/-- The main loop of `rewrite_projections`, accumulating the emitted
expressions (`acc`, the `result` vector of the source) and the excluded
names (`ex`).  A top-level `Except(Column(name))` records the name and
emits nothing; `Except` over anything else panics. -/
def rp_loop (s : Schema) :
    List Expr → List Expr → List String → Option (List Expr × List String)
  | [], acc, ex => some (acc, ex)
  | e :: rest, acc, ex =>
    match e with
    | .Except column =>
      match column with
      | .Column name => rp_loop s rest acc (ex ++ [name])
      | _ => none
    | _ =>
      match rp_step s e with
      | none => none
      | some emitted => rp_loop s rest (acc ++ emitted) ex

/-- `rewrite_projections` from the source: emit per input expression, then
remove one output per excluded name. -/
def rewrite_projections (exprs : List Expr) (s : Schema) :
    Option (List Expr) :=
  (rp_loop s exprs [] []).map (fun p =>
    if p.2.isEmpty then p.1
    else p.2.foldl remove_excluded_one p.1)

/-- `prepare_projection` from the source: run the rewriter, then compute
the output schema of the rewritten expressions in the `Default` context. -/
def prepare_projection (exprs : List Expr) (s : Schema) :
    Option (List Expr × Schema) :=
  match rewrite_projections exprs s with
  | none => none
  | some exprs2 =>
    match expressions_to_schema exprs2 s Context.Default with
    | none => none
    | some schema2 => some (exprs2, schema2)

/-- Modelled from the spec: the join kinds carried (not interpreted) by the
logical plan. -/
inductive JoinType where
  | Inner
  | Left
  | Outer
  | Cross
deriving DecidableEq, Repr

/-- Modelled from the spec: an in-memory dataframe, of which the logical
plan only ever reads the schema. -/
structure DataFrame where
  schema : Schema

/-- `LogicalPlan` from the source.  `PathBuf` paths are strings, `u8`
delimiters are naturals, and the opaque shared UDFs
(`Arc<dyn DataFrameUdf>`) are `Unit` placeholders carried untouched. -/
inductive LogicalPlan where
  | Selection (input : LogicalPlan) (predicate : Expr)
  | Cache (input : LogicalPlan)
  | CsvScan (path : String) (schema : Schema) (has_header : Bool)
      (delimiter : Nat) (ignore_errors : Bool) (skip_rows : Nat)
      (stop_after_n_rows : Option Nat) (with_columns : Option (List String))
      (predicate : Option Expr) (aggregate : List Expr) (cache : Bool)
      (low_memory : Bool)
  | ParquetScan (path : String) (schema : Schema)
      (with_columns : Option (List String)) (predicate : Option Expr)
      (aggregate : List Expr) (stop_after_n_rows : Option Nat) (cache : Bool)
  | DataFrameScan (df : DataFrame) (schema : Schema)
      (projection : Option (List Expr)) (selection : Option Expr)
  | LocalProjection (expr : List Expr) (input : LogicalPlan) (schema : Schema)
  | Projection (expr : List Expr) (input : LogicalPlan) (schema : Schema)
  | Aggregate (input : LogicalPlan) (keys : List Expr) (aggs : List Expr)
      (schema : Schema) (apply : Option Unit)
  | Join (input_left : LogicalPlan) (input_right : LogicalPlan)
      (schema : Schema) (how : JoinType) (left_on : List Expr)
      (right_on : List Expr) (allow_par : Bool) (force_par : Bool)
  | HStack (input : LogicalPlan) (exprs : List Expr) (schema : Schema)
  | Distinct (input : LogicalPlan) (maintain_order : Bool)
      (subset : Option (List String))
  | Sort (input : LogicalPlan) (by_column : List Expr) (reverse : List Bool)
  | Explode (input : LogicalPlan) (columns : List String)
  | Slice (input : LogicalPlan) (offset : Int) (len : Nat)
  | Melt (input : LogicalPlan) (id_vars : List String)
      (value_vars : List String) (schema : Schema)
  | Udf (input : LogicalPlan) (function : Unit) (predicate_pd : Bool)
      (projection_pd : Bool) (schema : Option Schema)

/-- `LogicalPlan::schema` from the source: stored schema for the caching
variants, the input's schema for the transparent wrappers. -/
def LogicalPlan.schema : LogicalPlan → Schema
  | .Cache input => input.schema
  | .Sort input _ _ => input.schema
  | .Explode input _ => input.schema
  | .ParquetScan _ schema _ _ _ _ _ => schema
  | .DataFrameScan _ schema _ _ => schema
  | .Selection input _ => input.schema
  | .CsvScan _ schema _ _ _ _ _ _ _ _ _ _ => schema
  | .Projection _ _ schema => schema
  | .LocalProjection _ _ schema => schema
  | .Aggregate _ _ _ schema _ => schema
  | .Join _ _ schema _ _ _ _ _ => schema
  | .HStack _ _ schema => schema
  | .Distinct input _ _ => input.schema
  | .Slice input _ _ => input.schema
  | .Melt _ _ _ schema => schema
  | .Udf input _ _ _ schema =>
    match schema with
    | some schema => schema
    | none => input.schema

/-- `LogicalPlanBuilder` from the source: a move-consuming wrapper around
the current root. -/
structure LogicalPlanBuilder where
  lp : LogicalPlan

/-- `LogicalPlanBuilder::project` from the source: prepare the projection;
an empty rewritten list is a select-all and returns the builder unchanged,
otherwise the input is wrapped in a `Projection` node. -/
def LogicalPlanBuilder.project (b : LogicalPlanBuilder) (exprs : List Expr) :
    Option LogicalPlanBuilder :=
  match prepare_projection exprs b.lp.schema with
  | none => none
  | some (exprs2, schema2) =>
    if !exprs2.isEmpty then
      some ⟨.Projection exprs2 b.lp schema2⟩
    else
      some b

/-- `LogicalPlanBuilder::project_local` from the source. -/
def LogicalPlanBuilder.project_local (b : LogicalPlanBuilder)
    (exprs : List Expr) : Option LogicalPlanBuilder :=
  match prepare_projection exprs b.lp.schema with
  | none => none
  | some (exprs2, schema2) =>
    if !exprs2.isEmpty then
      some ⟨.LocalProjection exprs2 b.lp schema2⟩
    else
      some b

/-- `LogicalPlanBuilder::groupby` from the source.  The source asserts
`debug_assert!(!keys.is_empty())`; the assertion is modelled as a fatal
construction error.  The schema is the merge of the keys' schema in the
`Default` context with the rewritten aggregations' schema in the
`Aggregation` context. -/
def LogicalPlanBuilder.groupby (b : LogicalPlanBuilder) (keys : List Expr)
    (aggs : List Expr) (apply : Option Unit) : Option LogicalPlanBuilder :=
  if keys.isEmpty then none
  else
    match rewrite_projections aggs b.lp.schema with
    | none => none
    | some aggs2 =>
      match expressions_to_schema keys b.lp.schema Context.Default with
      | none => none
      | some schema1 =>
        match expressions_to_schema aggs2 b.lp.schema Context.Aggregation with
        | none => none
        | some schema2 =>
          match try_merge [schema1, schema2] with
          | none => none
          | some schema =>
            some ⟨.Aggregate b.lp keys aggs2 schema apply⟩

/-- `det_melt_schema` from the source: keep every input field whose name is
not a value variable, then append `("variable", Utf8)` and `("value",
dtype_of(value_vars[0]))`.  Indexing an empty `value_vars` or a value
variable missing from the schema panics in the source. -/
def det_melt_schema (value_vars : List String) (input_schema : Schema) :
    Option Schema :=
  let fields := input_schema.fields.filter
    (fun field => !(value_vars.contains field.name))
  match value_vars.get? 0 with
  | none => none
  | some v0 =>
    match Schema.field_with_name input_schema v0 with
    | none => none
    | some value_field =>
      some (Schema.mk (fields ++
        [⟨"variable", .Utf8⟩, ⟨"value", value_field.dtype⟩]))

/-- `LogicalPlanBuilder::melt` from the source. -/
def LogicalPlanBuilder.melt (b : LogicalPlanBuilder) (id_vars : List String)
    (value_vars : List String) : Option LogicalPlanBuilder :=
  match det_melt_schema value_vars b.lp.schema with
  | none => none
  | some schema => some ⟨.Melt b.lp id_vars value_vars schema⟩

/-- The right-field pass of `LogicalPlanBuilder::join`: drop the join keys
coming from the right, rename a collision with a left name by appending
`_right`, keep everything else. -/
def join_right_fields (names right_names : List String) :
    List Field → List Field
  | [] => []
  | f :: fs =>
    if right_names.contains f.name then
      join_right_fields names right_names fs
    else if names.contains f.name then
      ⟨f.name ++ "_right", f.dtype⟩ :: join_right_fields names right_names fs
    else
      f :: join_right_fields names right_names fs

/-- `LogicalPlanBuilder::join` from the source.  The hash set of left names
is modelled as the list of left names (only membership is used); an
unresolvable `right_on` output name panics in the source. -/
def LogicalPlanBuilder.join (b : LogicalPlanBuilder) (other : LogicalPlan)
    (how : JoinType) (left_on right_on : List Expr)
    (allow_par force_par : Bool) : Option LogicalPlanBuilder :=
  let schema_left := b.lp.schema
  let schema_right := other.schema
  let names := schema_left.fields.map Field.name
  match right_on.mapM output_name with
  | none => none
  | some right_names =>
    let fields := schema_left.fields ++
      join_right_fields names right_names schema_right.fields
    some ⟨.Join b.lp other (Schema.mk fields) how left_on right_on
      allow_par force_par⟩

/-- `LogicalPlanBuilder::sort` from the source. -/
def LogicalPlanBuilder.sort (b : LogicalPlanBuilder) (by_column : List Expr)
    (reverse : List Bool) : LogicalPlanBuilder :=
  ⟨.Sort b.lp by_column reverse⟩

/-- `LogicalPlanBuilder::build` from the source. -/
def LogicalPlanBuilder.build (b : LogicalPlanBuilder) : LogicalPlan :=
  b.lp

/-- Modelled from the spec: the debug rendering of an expression, used in
the DOT labels.  The exact text is owned by the expression IR; the DOT
claims do not depend on it. -/
def exprDebug : Expr → String
  | .Column n => "col(\"" ++ n ++ "\")"
  | .Alias _ n => "alias(\"" ++ n ++ "\")"
  | .Wildcard => "*"
  | _ => "expr"

/-- Rust `{:?}` rendering of a `Vec<Expr>`. -/
def vec_expr_debug (es : List Expr) : String :=
  "[" ++ String.intercalate ", " (es.map exprDebug) ++ "]"

/-- Rust `{:?}` rendering of a `Vec<String>`. -/
def vec_string_debug (ss : List String) : String :=
  "[" ++ String.intercalate ", " (ss.map (fun s => "\"" ++ s ++ "\"")) ++ "]"

/-- Rust `{:?}` rendering of a `(usize, usize)` pair. -/
def tuple_debug (branch id : Nat) : String :=
  "(" ++ toString branch ++ ", " ++ toString id ++ ")"

/-- `fmt_predicate` from the source: render the predicate, strip square
brackets, and clip to 25 characters with a `...` suffix. -/
def fmt_predicate (predicate : Option Expr) : String :=
  match predicate with
  | some predicate =>
    let pred_fmt := ((exprDebug predicate).replace "[" "").replace "]" ""
    if pred_fmt.length > 25 then pred_fmt.take 25 ++ "..." else pred_fmt
  | none => "-"

/-- `LogicalPlan::write_dot` from the source: the root call (`id == 0`)
writes the graph header, every other call writes an edge from the previous
node to the current one. -/
def write_dot (acc_str prev_node current_node : String) (id : Nat) : String :=
  if id = 0 then
    acc_str ++ "graph  polars_query \x7b\n"
  else
    acc_str ++ "\"" ++ prev_node ++ "\" -- \"" ++ current_node ++ "\"\n"

/-- `LogicalPlan::dot` from the source.  `acc_str` is the accumulated
output, `(branch, id)` the label counters, `prev_node` the caller's label.
The `Sort` and `Join` arms format their suffix with `[{}]` over `id` alone,
every other arm with `[{:?}]` over the `(branch, id)` pair, exactly as in
the source. -/
def LogicalPlan.dot (lp : LogicalPlan) (acc_str : String) (branch id : Nat)
    (prev_node : String) : String :=
  match lp with
  | .Cache input =>
    let current_node := "CACHE [" ++ tuple_debug branch id ++ "]"
    input.dot (write_dot acc_str prev_node current_node id)
      branch (id + 1) current_node
  | .Selection input predicate =>
    let pred := fmt_predicate (some predicate)
    let current_node :=
      "FILTER BY " ++ pred ++ " [" ++ tuple_debug branch id ++ "]"
    input.dot (write_dot acc_str prev_node current_node id)
      branch (id + 1) current_node
  | .CsvScan path schema _ _ _ _ _ with_columns predicate _ _ _ =>
    let total_columns := toString schema.fields.length
    let n_columns :=
      match with_columns with
      | some columns => toString columns.length
      | none => "*"
    let pred := fmt_predicate predicate
    let current_node :=
      "CSV SCAN " ++ path ++ ";\nπ " ++ n_columns ++ "/" ++ total_columns ++
        ";\nσ " ++ pred ++ "\n[" ++ tuple_debug branch id ++ "]"
    let acc2 := write_dot acc_str prev_node current_node id
    if id = 0 then acc2 ++ "\"" ++ current_node ++ "\"" else acc2
  | .DataFrameScan _ schema projection selection =>
    let total_columns := toString schema.fields.length
    let n_columns :=
      match projection with
      | some columns => toString columns.length
      | none => "*"
    let pred := fmt_predicate selection
    let current_node :=
      "TABLE\nπ " ++ n_columns ++ "/" ++ total_columns ++ ";\nσ " ++ pred ++
        "\n[" ++ tuple_debug branch id ++ "]"
    let acc2 := write_dot acc_str prev_node current_node id
    if id = 0 then acc2 ++ "\"" ++ current_node ++ "\"" else acc2
  | .Projection expr input _ =>
    let current_node :=
      "π " ++ toString expr.length ++ "/" ++
        toString input.schema.fields.length ++ " [" ++
        tuple_debug branch id ++ "]"
    input.dot (write_dot acc_str prev_node current_node id)
      branch (id + 1) current_node
  | .Sort input by_column _ =>
    let current_node :=
      "SORT BY " ++ vec_expr_debug by_column ++ " [" ++ toString id ++ "]"
    input.dot (write_dot acc_str prev_node current_node id)
      branch (id + 1) current_node
  | .LocalProjection expr input _ =>
    let current_node :=
      "LOCAL π " ++ toString expr.length ++ "/" ++
        toString input.schema.fields.length ++ " [" ++
        tuple_debug branch id ++ "]"
    input.dot (write_dot acc_str prev_node current_node id)
      branch (id + 1) current_node
  | .Explode input columns =>
    let current_node :=
      "EXPLODE " ++ vec_string_debug columns ++ " [" ++
        tuple_debug branch id ++ "]"
    input.dot (write_dot acc_str prev_node current_node id)
      branch (id + 1) current_node
  | .Melt input _ _ _ =>
    let current_node := "MELT [" ++ tuple_debug branch id ++ "]"
    input.dot (write_dot acc_str prev_node current_node id)
      branch (id + 1) current_node
  | .Aggregate input keys aggs _ _ =>
    let s_keys := keys.foldl (fun acc k => acc ++ exprDebug k) ""
    let current_node :=
      "AGG " ++ vec_expr_debug aggs ++ " BY " ++ s_keys ++ " [" ++
        tuple_debug branch id ++ "]"
    input.dot (write_dot acc_str prev_node current_node id)
      branch (id + 1) current_node
  | .HStack input exprs _ =>
    let named := exprs.foldl (fun acc e =>
      match e with
      | .Alias _ name => acc ++ " " ++ name ++ ","
      | _ =>
        ((expr_to_root_column_names e).take 1).foldl
          (fun acc2 name => acc2 ++ " " ++ name ++ ",") acc) "STACK"
    let current_node := named ++ " [" ++ tuple_debug branch id ++ "]"
    input.dot (write_dot acc_str prev_node current_node id)
      branch (id + 1) current_node
  | .Slice input offset len =>
    let current_node :=
      "SLICE offset: " ++ toString offset ++ "; len: " ++ toString len ++
        " [" ++ tuple_debug branch id ++ "]"
    input.dot (write_dot acc_str prev_node current_node id)
      branch (id + 1) current_node
  | .Distinct input _ subset =>
    let base :=
      match subset with
      | some sub =>
        sub.foldl (fun acc name => acc ++ name ++ ", ") "DISTINCT BY "
      | none => "DISTINCT"
    let current_node := base ++ " [" ++ tuple_debug branch id ++ "]"
    input.dot (write_dot acc_str prev_node current_node id)
      branch (id + 1) current_node
  | .ParquetScan path schema with_columns predicate _ _ _ =>
    let total_columns := toString schema.fields.length
    let n_columns :=
      match with_columns with
      | some columns => toString columns.length
      | none => "*"
    let pred := fmt_predicate predicate
    let current_node :=
      "PARQUET SCAN " ++ path ++ ";\nπ " ++ n_columns ++ "/" ++
        total_columns ++ ";\nσ " ++ pred ++ " [" ++
        tuple_debug branch id ++ "]"
    let acc2 := write_dot acc_str prev_node current_node id
    if id = 0 then acc2 ++ "\"" ++ current_node ++ "\"" else acc2
  | .Join input_left input_right _ _ left_on right_on _ _ =>
    let current_node :=
      "JOIN left " ++ vec_expr_debug left_on ++ "; right: " ++
        vec_expr_debug right_on ++ " [" ++ toString id ++ "]"
    let acc2 := input_left.dot (write_dot acc_str prev_node current_node id)
      (branch + 10) (id + 1) current_node
    input_right.dot acc2 (branch + 20) (id + 1) current_node
  | .Udf input _ _ _ _ =>
    let current_node := "UDF [" ++ tuple_debug branch id ++ "]"
    input.dot (write_dot acc_str prev_node current_node id)
      branch (id + 1) current_node

/-! ### Concrete fixtures used by the theorems below -/

/-- A three-column schema `[a, b, c]`. -/
def schemaABC : Schema := ⟨[⟨"a", .Int64⟩, ⟨"b", .Int64⟩, ⟨"c", .Int64⟩]⟩

/-- A four-column schema `[a, b, c, d]`. -/
def schemaABCD : Schema :=
  ⟨[⟨"a", .Int64⟩, ⟨"b", .Int64⟩, ⟨"c", .Int64⟩, ⟨"d", .Int64⟩]⟩

/-- A one-column schema `[a]`. -/
def schemaA : Schema := ⟨[⟨"a", .Int64⟩]⟩

/-- An in-memory scan over `[a, b, c]`. -/
def scanABC : LogicalPlan := .DataFrameScan ⟨schemaABC⟩ schemaABC none none

/-- An in-memory scan over `[a]`. -/
def dfScanA : LogicalPlan := .DataFrameScan ⟨schemaA⟩ schemaA none none

/-- A `Sort` with no sort keys over the one-column scan. -/
def sortNode : LogicalPlan := .Sort dfScanA [] []

/-- A `Join` whose two children are (structurally equal) `Sort` nodes. -/
def joinOfSorts : LogicalPlan :=
  .Join sortNode sortNode schemaA .Left [] [] true false

/-- The left schema `[days, temp, rain]` of the join scenario. -/
def schemaLTR : Schema :=
  ⟨[⟨"days", .Int32⟩, ⟨"temp", .Float64⟩, ⟨"rain", .Float64⟩]⟩

/-- The right schema `[days, rain]` of the join scenario. -/
def schemaDR : Schema := ⟨[⟨"days", .Int32⟩, ⟨"rain", .Float64⟩]⟩

/-- An in-memory scan over `[days, temp, rain]`. -/
def scanLTR : LogicalPlan := .DataFrameScan ⟨schemaLTR⟩ schemaLTR none none

/-- An in-memory scan over `[days, rain]`. -/
def scanDR : LogicalPlan := .DataFrameScan ⟨schemaDR⟩ schemaDR none none

/-- The melt scenario schema `[a, b, temp]`. -/
def schemaABT : Schema :=
  ⟨[⟨"a", .Int64⟩, ⟨"b", .Int64⟩, ⟨"temp", .Float64⟩]⟩

/-- An in-memory scan over `[a, b, temp]`. -/
def scanABT : LogicalPlan := .DataFrameScan ⟨schemaABT⟩ schemaABT none none

/-- The wildcard-bearing multiplication `col("*") * lit(2)`. -/
def mulWildcard : Expr :=
  .BinaryExpr Expr.Wildcard Operator.Multiply (.Literal (.Int32 2))

/-! ### Helper lemmas -/

/-- On a non-`Except` head expression, the main loop performs `rp_step`
and appends whatever it emits. -/
theorem rp_loop_cons_not_except (s : Schema) (e : Expr) (rest acc : List Expr)
    (ex : List String) (he : e.isExcept = false) :
    rp_loop s (e :: rest) acc ex =
      match rp_step s e with
      | none => none
      | some emitted => rp_loop s rest (acc ++ emitted) ex := by
  cases e <;> first
    | rfl
    | simp [Expr.isExcept] at he

/-- `swap_remove` on a non-empty list drops exactly one element. -/
theorem swap_remove_length {α : Type} (l : List α) (i : Nat) (h : l ≠ []) :
    (swap_remove l i).length + 1 = l.length := by
  unfold swap_remove
  cases hl : l.getLast? with
  | none => exact absurd (List.getLast?_eq_none_iff.mp hl) h
  | some x =>
    have hpos : 0 < l.length := List.length_pos.mpr h
    simp [List.length_dropLast, List.length_set]
    omega

/-- The right-field pass of `join` is the filter/rename map of the spec. -/
theorem join_right_fields_eq_filterMap (names right_names : List String)
    (fs : List Field) :
    join_right_fields names right_names fs =
      fs.filterMap (fun f =>
        if right_names.contains f.name then none
        else if names.contains f.name then
          some ⟨f.name ++ "_right", f.dtype⟩
        else some f) := by
  induction fs with
  | nil => rfl
  | cons f fs ih =>
    by_cases h1 : f.name ∈ right_names
    · simp [join_right_fields, List.filterMap_cons, h1, ih]
    · by_cases h2 : f.name ∈ names
      · simp [join_right_fields, List.filterMap_cons, h1, h2, ih]
      · simp [join_right_fields, List.filterMap_cons, h1, h2, ih]

/-! ### Claim theorems -/

/-- C7: `schema()` on a `Selection`, `Cache`, `Distinct`, `Sort`, `Explode`
or `Slice` node returns exactly the schema of its input node — these
wrappers never alter the schema, so resolving the schema costs one hop per
transparent variant and is a stored read on the caching variants. -/
theorem c7_transparent_variants_schema :
    (∀ (input : LogicalPlan) (predicate : Expr),
      (LogicalPlan.Selection input predicate).schema = input.schema) ∧
    (∀ (input : LogicalPlan),
      (LogicalPlan.Cache input).schema = input.schema) ∧
    (∀ (input : LogicalPlan) (m : Bool) (sub : Option (List String)),
      (LogicalPlan.Distinct input m sub).schema = input.schema) ∧
    (∀ (input : LogicalPlan) (b : List Expr) (r : List Bool),
      (LogicalPlan.Sort input b r).schema = input.schema) ∧
    (∀ (input : LogicalPlan) (cols : List String),
      (LogicalPlan.Explode input cols).schema = input.schema) ∧
    (∀ (input : LogicalPlan) (o : Int) (l : Nat),
      (LogicalPlan.Slice input o l).schema = input.schema) :=
  ⟨fun _ _ => rfl, fun _ => rfl, fun _ _ _ => rfl, fun _ _ _ => rfl,
   fun _ _ => rfl, fun _ _ _ => rfl⟩

/-- C10: the `Except`-removal step is a `swap_remove`, which moves the last
emitted expression into the removed slot: on schema `[a, b, c, d]`,
projecting `[col("*"), except("b")]` yields root columns `a, d, c` — not
the emission order `a, c, d`. -/
theorem c10_swap_remove_reorders :
    rewrite_projections [Expr.Wildcard, Expr.Except (Expr.Column "b")]
        schemaABCD =
      some [Expr.Column "a", Expr.Column "d", Expr.Column "c"] ∧
    (["a", "d", "c"] : List String) ≠ ["a", "c", "d"] :=
  ⟨rfl, by decide⟩

/-- C3: an `Except(Column(name))` entry emits nothing and only records the
name; each excluded name then removes at most one emitted output; on schema
`[a, b, c]`, projecting `[col("*"), except("b")]` leaves exactly the root
columns `{a, c}`. -/
theorem c3_except_removal :
    (rewrite_projections [Expr.Wildcard, Expr.Except (Expr.Column "b")]
        schemaABC =
      some [Expr.Column "a", Expr.Column "c"]) ∧
    (∀ (s : Schema) (n : String) (rest acc : List Expr) (ex : List String),
      rp_loop s (Expr.Except (Expr.Column n) :: rest) acc ex =
        rp_loop s rest acc (ex ++ [n])) ∧
    (∀ (result : List Expr) (n : String),
      (remove_excluded_one result n).length = result.length ∨
      (remove_excluded_one result n).length + 1 = result.length) := by
  refine ⟨rfl, fun _ _ _ _ _ => rfl, fun result n => ?_⟩
  unfold remove_excluded_one
  cases h : result.findIdx? (fun e =>
      match expr_to_root_column_name e with
      | some column_name => column_name == n
      | none => false) with
  | none => exact Or.inl rfl
  | some idx =>
    refine Or.inr (swap_remove_length result idx ?_)
    intro hres
    subst hres
    simp [List.findIdx?] at h

/-- C1 counterexample: the claim promises that every `Wildcard` subterm is
replaced, but `replace_wildcard_with_column` preserves the `idx` argument
of `Take` untouched, so a `Wildcard` there survives the fan-out: each of
the three emitted copies still contains a `Wildcard` subterm. -/
theorem c1_counterexample :
    rewrite_projections [Expr.Take Expr.Wildcard Expr.Wildcard] schemaABC =
      some [Expr.Take (Expr.Column "a") Expr.Wildcard,
            Expr.Take (Expr.Column "b") Expr.Wildcard,
            Expr.Take (Expr.Column "c") Expr.Wildcard] ∧
    has_expr (Expr.Take (Expr.Column "a") Expr.Wildcard) isWildcard = true :=
  ⟨rfl, rfl⟩

/-- C1 (amended): for a non-`Except` entry containing a `Wildcard` but no
`Agg(Count(_))`, `rewrite_projections` emits exactly one copy per schema
field in field order, each copy being `replace_wildcard_with_column` at
that field's name (which substitutes `Wildcard` at every traversed
position, leaving window partition/order lists, `Take` indices, `SortBy`
keys and `Except` arguments untouched); on `[a, b, c]`,
`project([col("*") * lit(2)])` yields exactly three expressions whose root
columns are `a`, `b`, `c` in order, each preserving the multiplication. -/
theorem c1_wildcard_fanout :
    (∀ (e : Expr) (s : Schema),
      has_expr e isWildcard = true →
      has_expr e isCountAgg = false →
      e.isExcept = false →
      rewrite_projections [e] s =
        s.fields.mapM (fun f => replace_wildcard_with_column e f.name)) ∧
    rewrite_projections [mulWildcard] schemaABC =
      some [.BinaryExpr (.Column "a") Operator.Multiply (.Literal (.Int32 2)),
            .BinaryExpr (.Column "b") Operator.Multiply (.Literal (.Int32 2)),
            .BinaryExpr (.Column "c") Operator.Multiply
              (.Literal (.Int32 2))] ∧
    (∃ sch, LogicalPlanBuilder.project ⟨scanABC⟩ [mulWildcard] =
      some ⟨.Projection
        [.BinaryExpr (.Column "a") Operator.Multiply (.Literal (.Int32 2)),
         .BinaryExpr (.Column "b") Operator.Multiply (.Literal (.Int32 2)),
         .BinaryExpr (.Column "c") Operator.Multiply (.Literal (.Int32 2))]
        scanABC sch⟩) := by
  refine ⟨?_, rfl, ⟨_, rfl⟩⟩
  intro e s hw hc he
  unfold rewrite_projections
  rw [rp_loop_cons_not_except s e [] [] [] he]
  simp only [rp_step, hw, hc, Bool.false_eq_true, if_true, if_false]
  cases hm : s.fields.mapM (fun f => replace_wildcard_with_column e f.name)
    with
  | none => rfl
  | some emitted => simp [rp_loop]

/-- C1 witness: the fan-out equation applied to `is_null(col("*"))` on the
schema `[a, b, c]`. -/
theorem c1_witness :
    rewrite_projections [Expr.IsNull Expr.Wildcard] schemaABC =
      schemaABC.fields.mapM (fun f =>
        replace_wildcard_with_column (Expr.IsNull Expr.Wildcard) f.name) :=
  c1_wildcard_fanout.1 (Expr.IsNull Expr.Wildcard) schemaABC rfl rfl rfl

/-- C2 counterexample: an `Except` shell whose argument contains both a
`Wildcard` and an `Agg(Count(_))` subterm is handled by the `Except` rule
first — the source panics on a non-`Column` argument — so nothing is
emitted for it, not one expression. -/
theorem c2_counterexample :
    rewrite_projections [Expr.Except (Expr.Agg (.Count Expr.Wildcard))]
      schemaABC = none := rfl

/-- C2 (amended): for a non-empty schema, a non-`Except` entry containing
both a `Wildcard` and an `Agg(Count(_))` subterm makes
`rewrite_projections` emit — when the root rename to the schema's first
field name succeeds — exactly one output expression: the root-renamed
expression, wrapped in `Alias("count")` unless it is already an `Alias` at
the root. -/
theorem c2_count_wildcard_collapse :
    (∀ (e : Expr) (s : Schema) (f : Field),
      Schema.field s 0 = some f →
      has_expr e isWildcard = true →
      has_expr e isCountAgg = true →
      e.isExcept = false →
      rewrite_projections [e] s =
        (rename_expr_root_name e f.name).map (fun renamed =>
          [if renamed.isAlias then renamed
           else .Alias renamed "count"])) ∧
    rewrite_projections [Expr.Agg (.Count Expr.Wildcard)] schemaABC =
      some [Expr.Alias (Expr.Agg (.Count (Expr.Column "a"))) "count"] := by
  constructor
  · intro e s f hf hw hc he
    unfold rewrite_projections
    rw [rp_loop_cons_not_except s e [] [] [] he]
    simp only [rp_step, hw, hc, if_true, hf, Option.some_bind]
    cases hr : rename_expr_root_name e f.name with
    | none => rfl
    | some renamed => simp [rp_loop]
  · rfl

/-- C2 witness: the collapse equation applied to `count(col("*"))` on the
schema `[a, b, c]`, whose first field is `a`. -/
theorem c2_witness :
    rewrite_projections [Expr.Agg (.Count Expr.Wildcard)] schemaABC =
      (rename_expr_root_name (Expr.Agg (.Count Expr.Wildcard)) "a").map
        (fun renamed =>
          [if renamed.isAlias then renamed
           else .Alias renamed "count"]) :=
  c2_count_wildcard_collapse.1 (Expr.Agg (.Count Expr.Wildcard)) schemaABC
    ⟨"a", .Int64⟩ rfl rfl rfl rfl

/-- C6: whenever `prepare_projection` rewrites the given expression list to
an empty list (in particular for `project([])`), `project` returns the
builder unchanged: no `Projection` wrapper is added and the schema is
untouched. -/
theorem c6_empty_projection_identity :
    ∀ (b : LogicalPlanBuilder) (exprs : List Expr) (sch : Schema),
      prepare_projection exprs b.lp.schema = some ([], sch) →
      LogicalPlanBuilder.project b exprs = some b := by
  intro b exprs sch h
  unfold LogicalPlanBuilder.project
  rw [h]
  rfl

/-- C6 witness: `project([])` on a scan over `[a, b, c]` is the identity. -/
theorem c6_witness :
    LogicalPlanBuilder.project ⟨scanABC⟩ [] = some ⟨scanABC⟩ :=
  c6_empty_projection_identity ⟨scanABC⟩ [] ⟨[]⟩ rfl

/-- C8: constructing a group-by with an empty key list is a fatal
construction error (the source asserts `!keys.is_empty()`), and every
`Aggregate` node the builder constructs therefore carries a non-empty key
list. -/
theorem c8_groupby_nonempty_keys :
    (∀ (b : LogicalPlanBuilder) (aggs : List Expr) (ap : Option Unit),
      LogicalPlanBuilder.groupby b [] aggs ap = none) ∧
    (∀ (b : LogicalPlanBuilder) (keys aggs : List Expr) (ap : Option Unit)
      (r : LogicalPlanBuilder),
      LogicalPlanBuilder.groupby b keys aggs ap = some r → keys ≠ []) := by
  constructor
  · intro b aggs ap
    rfl
  · intro b keys aggs ap r h hk
    subst hk
    simp [LogicalPlanBuilder.groupby] at h

/-- C8 witness: a successful group-by (`keys = [col("a")]`,
`aggs = [col("b")]` over `[a, b, c]`) has non-empty keys. -/
theorem c8_witness : ([Expr.Column "a"] : List Expr) ≠ [] :=
  c8_groupby_nonempty_keys.2 ⟨scanABC⟩ [Expr.Column "a"] [Expr.Column "b"]
    none
    ⟨.Aggregate scanABC [Expr.Column "a"] [Expr.Column "b"]
      ⟨[⟨"a", .Int64⟩, ⟨"b", .Int64⟩]⟩ none⟩ rfl

/-- C4: the schema cached on a `Join` node built by `join()` is all left
fields in order, followed by, for each right field in order: nothing when
its name is an output name of `right_on`, a `_right`-suffixed field of the
same dtype when its name occurs in the left schema, and the field
unchanged otherwise; `left = [days, temp, rain]` joined with
`right = [days, rain]` on `col("days")` yields
`[days, temp, rain, rain_right]`. -/
theorem c4_join_schema :
    (∀ (b : LogicalPlanBuilder) (other : LogicalPlan) (how : JoinType)
      (left_on right_on : List Expr) (ap fp : Bool)
      (right_names : List String),
      right_on.mapM output_name = some right_names →
      LogicalPlanBuilder.join b other how left_on right_on ap fp =
        some ⟨.Join b.lp other
          (Schema.mk (b.lp.schema.fields ++
            other.schema.fields.filterMap (fun f =>
              if right_names.contains f.name then none
              else if (b.lp.schema.fields.map Field.name).contains f.name
              then some ⟨f.name ++ "_right", f.dtype⟩
              else some f)))
          how left_on right_on ap fp⟩) ∧
    LogicalPlanBuilder.join ⟨scanLTR⟩ scanDR .Left [Expr.Column "days"]
        [Expr.Column "days"] true false =
      some ⟨.Join scanLTR scanDR
        (Schema.mk [⟨"days", .Int32⟩, ⟨"temp", .Float64⟩,
          ⟨"rain", .Float64⟩, ⟨"rain_right", .Float64⟩])
        .Left [Expr.Column "days"] [Expr.Column "days"] true false⟩ := by
  constructor
  · intro b other how left_on right_on ap fp right_names h
    simp only [LogicalPlanBuilder.join, h, join_right_fields_eq_filterMap]
  · rfl

/-- C4 witness: the join-schema equation applied to the concrete
`[days, temp, rain] ⋈ [days, rain]` scenario. -/
theorem c4_witness :
    LogicalPlanBuilder.join ⟨scanLTR⟩ scanDR .Left [Expr.Column "days"]
        [Expr.Column "days"] true false =
      some ⟨.Join scanLTR scanDR
        (Schema.mk (schemaLTR.fields ++
          schemaDR.fields.filterMap (fun f =>
            if (["days"] : List String).contains f.name then none
            else if (schemaLTR.fields.map Field.name).contains f.name then
              some ⟨f.name ++ "_right", f.dtype⟩
            else some f)))
        .Left [Expr.Column "days"] [Expr.Column "days"] true false⟩ :=
  c4_join_schema.1 ⟨scanLTR⟩ scanDR .Left [Expr.Column "days"]
    [Expr.Column "days"] true false ["days"] rfl

/-- C5: the schema cached on a `Melt` node built by `melt()` keeps every
input field whose name is not a value variable, in input order, then
appends `("variable", Utf8)` and `("value", dtype)` with `dtype` the input
dtype of `value_vars[0]`; `melt(id_vars = [a], value_vars = [temp])` on
`[a, b, temp]` produces `[a, b, variable: Utf8, value: dtype(temp)]`. -/
theorem c5_melt_schema :
    (∀ (b : LogicalPlanBuilder) (id_vars value_vars : List String)
      (v0 : String) (value_field : Field),
      value_vars.get? 0 = some v0 →
      Schema.field_with_name b.lp.schema v0 = some value_field →
      LogicalPlanBuilder.melt b id_vars value_vars =
        some ⟨.Melt b.lp id_vars value_vars
          (Schema.mk (b.lp.schema.fields.filter
              (fun field => !(value_vars.contains field.name)) ++
            [⟨"variable", .Utf8⟩, ⟨"value", value_field.dtype⟩]))⟩) ∧
    LogicalPlanBuilder.melt ⟨scanABT⟩ ["a"] ["temp"] =
      some ⟨.Melt scanABT ["a"] ["temp"]
        (Schema.mk [⟨"a", .Int64⟩, ⟨"b", .Int64⟩, ⟨"variable", .Utf8⟩,
          ⟨"value", .Float64⟩])⟩ := by
  constructor
  · intro b id_vars value_vars v0 value_field h0 hf
    simp only [LogicalPlanBuilder.melt, det_melt_schema, h0, hf]
  · rfl

/-- C5 witness: the melt-schema equation applied to
`melt(id_vars = [a], value_vars = [temp])` on `[a, b, temp]`. -/
theorem c5_witness :
    LogicalPlanBuilder.melt ⟨scanABT⟩ ["a"] ["temp"] =
      some ⟨.Melt scanABT ["a"] ["temp"]
        (Schema.mk (schemaABT.fields.filter
            (fun field => !((["temp"] : List String).contains field.name)) ++
          [⟨"variable", .Utf8⟩, ⟨"value", DataType.Float64⟩]))⟩ :=
  c5_melt_schema.1 ⟨scanABT⟩ ["a"] ["temp"] "temp" ⟨"temp", .Float64⟩ rfl rfl

/-- C9: on a `Join` of two structurally equal `Sort` nodes, `dot` labels
both `Sort` children `SORT BY [] [1]` — the `Sort` and `Join` arms format
their suffix from `id` alone, dropping the branch — so the two distinct
nodes of the two join branches collide on one label instead of carrying
the unique suffixes `[(10, 1)]` and `[(20, 1)]`. -/
theorem c9_dot_sort_join_id_only :
    LogicalPlan.dot joinOfSorts "" 0 0 "" =
      "graph  polars_query \x7b\n\"JOIN left []; right: [] [0]\" -- \"SORT BY [] [1]\"\n\"SORT BY [] [1]\" -- \"TABLE\nπ */1;\nσ -\n[(10, 2)]\"\n\"JOIN left []; right: [] [0]\" -- \"SORT BY [] [1]\"\n\"SORT BY [] [1]\" -- \"TABLE\nπ */1;\nσ -\n[(20, 2)]\"\n" :=
  rfl

end PolarsLP
